import Mathlib

/-!
Verification of the hash-composition pipeline of `pogom/pgoapi/utilities.py`.

Shallow embedding conventions:
* A byte buffer is a `List Nat` whose entries are intended to lie in `[0, 256)`.
* A `float64` value is represented by its raw IEEE-754 bit pattern, a `Nat`
  below `2 ^ 64`; `struct.pack('<d', x)` followed by `struct.unpack('<Q', …)`
  is exactly this bit-pattern reinterpretation, so the Python float codec
  (`f2i` / `f2h` / `d2h`) acts only on the bit pattern.
* The opaque native primitive `_nhash.compute_hash` is a parameter
  `f : List Nat → Nat`; `calcHash` wraps its result with `ctypes.c_uint64`,
  i.e. reduction modulo `2 ^ 64`.
* `ctypes.c_int32(x).value`, `ctypes.c_int64(x).value` and
  `ctypes.c_uint(x).value` are modelled by `c_int32`, `c_int64`, `c_uint32`.
* Python's arithmetic right shift `s >> 32` on a (possibly negative) integer
  is floor division, `Int.fdiv s (2 ^ 32)`.
-/

/-- `struct.pack`-style fixed-width big-endian byte encoding of a natural
number: most significant byte first, exactly `w` bytes. -/
def beBytes : Nat → Nat → List Nat
  | _, 0 => []
  | n, w + 1 => beBytes (n / 256) w ++ [n % 256]

/-- Decode a big-endian byte list back to a natural number (for stating
value-preservation of the encoders). -/
def natOfBe (bs : List Nat) : Nat :=
  bs.foldl (fun a b => a * 256 + b) 0

/-- Fuel-driven count of hex digits produced by Python's `hex(n)` (minimal
width, `'0'` for zero). The fuel is always taken to be `n` itself, which
dominates the number of base-16 digits of `n`. -/
def hexDigitsAux : Nat → Nat → Nat
  | 0, _ => 1
  | fuel + 1, n => if n < 16 then 1 else hexDigitsAux fuel (n / 16) + 1

/-- Number of hex digits in Python's `hex(n)[2:]`. -/
def hexNumDigits (n : Nat) : Nat := hexDigitsAux n n

/-- Fuel-driven `int.bit_length()`: `0` for zero, otherwise the position of
the highest set bit plus one. -/
def bitLenAux : Nat → Nat → Nat
  | 0, _ => 0
  | fuel + 1, n => if n = 0 then 0 else bitLenAux fuel (n / 2) + 1

/-- Python's `val.bit_length()`. -/
def pyBitLength (n : Nat) : Nat := bitLenAux n n

/-- `ctypes.c_int64(x).value`: two's-complement wrap of an integer into
`[-2^63, 2^63)`. -/
def c_int64 (x : Int) : Int := (x + 2 ^ 63) % 2 ^ 64 - 2 ^ 63

/-- `ctypes.c_int32(x).value`: two's-complement wrap of an integer into
`[-2^31, 2^31)`. -/
def c_int32 (x : Int) : Int := (x + 2 ^ 31) % 2 ^ 32 - 2 ^ 31

/-- `ctypes.c_uint(x).value` (32-bit unsigned on the targeted platform):
wrap of an integer into `[0, 2^32)`. -/
def c_uint32 (x : Int) : Nat := (x % 2 ^ 32).toNat

/-- `HASH_SEED = 0x61247FBF`, the static seed from the app
(`utilities.py`, line 44). -/
def HASH_SEED : Nat := 0x61247FBF

/-- `calcHash(buf)` (`utilities.py`, lines 218-230): feed the buffer to the
opaque native primitive `f` and wrap the result with `ctypes.c_uint64`. -/
def calcHash (f : List Nat → Nat) (buf : List Nat) : Nat :=
  f buf % 2 ^ 64

/-- `d2h(f)` (`utilities.py`, lines 62-65 and 199-202), acting on the bit
pattern of the double: take the minimal hex string `hex(bits)[2:]`, left-pad
it with one `'0'` if its length is odd, and `unhexlify` the result. The
output therefore has `(hexNumDigits bits + hexNumDigits bits % 2) / 2`
bytes, not a fixed 8. -/
def d2h (bits : Nat) : List Nat :=
  beBytes bits ((hexNumDigits bits + hexNumDigits bits % 2) / 2)

/-- `hash64salt32(buf, seed)` (`utilities.py`, lines 204-206):
`calcHash(struct.pack(">I", seed) + buf)`. `seed` is a `uint32`. -/
def hash64salt32 (f : List Nat → Nat) (buf : List Nat) (seed : Nat) : Nat :=
  calcHash f (beBytes seed 4 ++ buf)

/-- `hash64salt64(buf, seed)` (`utilities.py`, lines 208-210):
`calcHash(struct.pack(">Q", seed) + buf)`. `seed` is a `uint64`. -/
def hash64salt64 (f : List Nat → Nat) (buf : List Nat) (seed : Nat) : Nat :=
  calcHash f (beBytes seed 8 ++ buf)

/-- The fold performed in `hash32` (`utilities.py`, lines 215-216) on the
`uint64` value returned by `calcHash`: reinterpret as signed 64-bit
(`ctypes.c_int64`), then XOR the `c_uint`-wrapped low word with the
`c_uint`-wrapped arithmetic right shift by 32. -/
def hash32fold (h : Nat) : Nat :=
  c_uint32 (c_int64 (h : Int)) ^^^ c_uint32 (Int.fdiv (c_int64 (h : Int)) (2 ^ 32))

/-- `hash32(buf, seed)` (`utilities.py`, lines 212-216): prepend the
big-endian 4-byte seed, hash, and fold the 64-bit result to 32 bits. -/
def hash32 (f : List Nat → Nat) (buf : List Nat) (seed : Nat) : Nat :=
  hash32fold (calcHash f (beBytes seed 4 ++ buf))

/-- `generate_location_hash_by_seed(authticket, lat, lng, acc)`
(`utilities.py`, lines 181-185). `lat`, `lng`, `acc` are double bit
patterns. -/
def generate_location_hash_by_seed (f : List Nat → Nat) (authticket : List Nat)
    (lat lng acc : Nat) : Int :=
  c_int32 ((hash32 f (d2h lat ++ d2h lng ++ d2h acc)
    (hash32 f authticket HASH_SEED) : Nat) : Int)

/-- `generate_location_hash(lat, lng, acc)` (`utilities.py`, lines
188-191). -/
def generate_location_hash (f : List Nat → Nat) (lat lng acc : Nat) : Int :=
  c_int32 ((hash32 f (d2h lat ++ d2h lng ++ d2h acc) HASH_SEED : Nat) : Int)

/-- `generate_location_hash` at its Python default accuracy argument
`acc=5`, which `struct.pack('<d', 5)` treats as the double `5.0`, of bit
pattern `0x4014000000000000`. -/
def generate_location_hash_default (f : List Nat → Nat) (lat lng : Nat) : Int :=
  generate_location_hash f lat lng 0x4014000000000000

/-- `generate_request_hash(authticket, request)` (`utilities.py`, lines
194-197). -/
def generate_request_hash (f : List Nat → Nat) (authticket request : List Nat) : Int :=
  c_int64 ((hash64salt64 f request (hash64salt32 f authticket HASH_SEED) : Nat) : Int)

/-- `long_to_bytes(val, endianness)` (`utilities.py`, lines 146-178):
format `val` as hex zero-padded to `width // 4` digits (where `width` rounds
the bit length up to a multiple of 8, except that a bit length of 0 yields
width 0 and hence the one-digit string `'0'`), then `unhexlify`. An
odd-length hex string makes `unhexlify` raise, modelled as `none`. -/
def long_to_bytes (val : Nat) (little : Bool := false) : Option (List Nat) :=
  let width := pyBitLength val +
    (8 - (if pyBitLength val % 8 = 0 then 8 else pyBitLength val % 8))
  let digits := max (width / 4) (hexNumDigits val)
  if digits % 2 = 1 then none
  else
    let s := beBytes val (digits / 2)
    some (if little then s.reverse else s)

/-! ### Specification-side definitions

These four definitions follow the wording of the specification (§4.2-§4.4)
rather than the source; the refinement theorems below compare the source
transcriptions against them. -/

/-- Modelled from the spec: `fold_to_uint32(h) = high_word XOR low_word`
with `high_word = (h >> 32) & 0xFFFFFFFF`, `low_word = h & 0xFFFFFFFF`,
computed on the unsigned 64-bit pattern. -/
def spec_fold_to_uint32 (h : Nat) : Nat :=
  (h / 2 ^ 32 % 2 ^ 32) ^^^ (h % 2 ^ 32)

/-- Modelled from the spec: `reinterpret_as_int32`, two's-complement
narrowing of a `uint32`. -/
def spec_reinterpret_as_int32 (v : Nat) : Int :=
  if v < 2 ^ 31 then (v : Int) else (v : Int) - 2 ^ 32

/-- Modelled from the spec: `reinterpret_as_int64`, two's-complement
reinterpretation of a `uint64`. -/
def spec_reinterpret_as_int64 (v : Nat) : Int :=
  if v < 2 ^ 63 then (v : Int) else (v : Int) - 2 ^ 64

/-- Modelled from the spec: the big-endian 4-byte encoding of a `uint32`,
most significant byte first. -/
def spec_bigEndianU32 (seed : Nat) : List Nat :=
  [seed / 2 ^ 24 % 256, seed / 2 ^ 16 % 256, seed / 2 ^ 8 % 256, seed % 256]

/-- Modelled from the spec: the big-endian 8-byte encoding of a `uint64`,
most significant byte first. -/
def spec_bigEndianU64 (seed : Nat) : List Nat :=
  [seed / 2 ^ 56 % 256, seed / 2 ^ 48 % 256, seed / 2 ^ 40 % 256,
   seed / 2 ^ 32 % 256, seed / 2 ^ 24 % 256, seed / 2 ^ 16 % 256,
   seed / 2 ^ 8 % 256, seed % 256]

/-- Modelled from the spec (§4.4): the four-step `location_hash` pipeline —
encode the three doubles, salt with the seed, fold to 32 bits, reinterpret
as signed. -/
def spec_location_hash (f : List Nat → Nat) (lat lng acc seed : Nat) : Int :=
  spec_reinterpret_as_int32 (spec_fold_to_uint32
    (hash64salt32 f (d2h lat ++ d2h lng ++ d2h acc) seed))

/-! ### Helper lemmas -/

lemma calcHash_lt (f : List Nat → Nat) (buf : List Nat) :
    calcHash f buf < 2 ^ 64 :=
  Nat.mod_lt _ (by norm_num)

lemma c_uint32_lt (x : Int) : c_uint32 x < 2 ^ 32 := by
  unfold c_uint32; omega

lemma hash32fold_eq (h : Nat) :
    hash32fold h = spec_fold_to_uint32 h := by
  unfold hash32fold spec_fold_to_uint32 c_uint32
  rw [Int.fdiv_eq_ediv _ (by norm_num)]
  have h1 : ((c_int64 (h : Int)) % 2 ^ 32).toNat = h % 2 ^ 32 := by
    unfold c_int64; omega
  have h2 : ((c_int64 (h : Int)) / 2 ^ 32 % 2 ^ 32).toNat = h / 2 ^ 32 % 2 ^ 32 := by
    unfold c_int64; omega
  rw [h1, h2, Nat.xor_comm]

lemma hash32_eq (f : List Nat → Nat) (buf : List Nat) (seed : Nat) :
    hash32 f buf seed = spec_fold_to_uint32 (hash64salt32 f buf seed) :=
  hash32fold_eq _

lemma spec_fold_lt (h : Nat) : spec_fold_to_uint32 h < 2 ^ 32 :=
  Nat.xor_lt_two_pow (by omega) (by omega)

lemma hash32_lt (f : List Nat → Nat) (buf : List Nat) (seed : Nat) :
    hash32 f buf seed < 2 ^ 32 := by
  rw [hash32_eq]; exact spec_fold_lt _

lemma c_int32_eq_spec (v : Nat) (hv : v < 2 ^ 32) :
    c_int32 (v : Int) = spec_reinterpret_as_int32 v := by
  unfold c_int32 spec_reinterpret_as_int32
  split <;> omega

lemma c_int64_eq_spec (v : Nat) (hv : v < 2 ^ 64) :
    c_int64 (v : Int) = spec_reinterpret_as_int64 v := by
  unfold c_int64 spec_reinterpret_as_int64
  split <;> omega

lemma and_mask32 (m : Nat) : m &&& 0xFFFFFFFF = m % 2 ^ 32 :=
  Nat.and_pow_two_sub_one_eq_mod m 32

lemma beBytes_four (n : Nat) : beBytes n 4 = spec_bigEndianU32 n := by
  show [n / 256 / 256 / 256 % 256, n / 256 / 256 % 256, n / 256 % 256, n % 256] = _
  unfold spec_bigEndianU32
  norm_num [Nat.div_div_eq_div_mul]

lemma beBytes_eight (n : Nat) : beBytes n 8 = spec_bigEndianU64 n := by
  show [n / 256 / 256 / 256 / 256 / 256 / 256 / 256 % 256,
        n / 256 / 256 / 256 / 256 / 256 / 256 % 256,
        n / 256 / 256 / 256 / 256 / 256 % 256,
        n / 256 / 256 / 256 / 256 % 256,
        n / 256 / 256 / 256 % 256, n / 256 / 256 % 256, n / 256 % 256,
        n % 256] = _
  unfold spec_bigEndianU64
  norm_num [Nat.div_div_eq_div_mul]

lemma beBytes_length (n w : Nat) : (beBytes n w).length = w := by
  induction w generalizing n with
  | zero => rfl
  | succ w ih => simp [beBytes, ih]

lemma natOfBe_beBytes (w n : Nat) (hn : n < 256 ^ w) :
    natOfBe (beBytes n w) = n := by
  induction w generalizing n with
  | zero => simp [beBytes, natOfBe]; omega
  | succ w ih =>
    have hdiv : n / 256 < 256 ^ w := by
      apply Nat.div_lt_of_lt_mul
      have e : 256 * 256 ^ w = 256 ^ (w + 1) := by ring
      omega
    have := ih (n / 256) hdiv
    simp only [beBytes, natOfBe, List.foldl_append] at this ⊢
    rw [this]
    simp only [List.foldl_cons, List.foldl_nil]
    omega

lemma hexDigitsAux_le (fuel n m : Nat) (hn : n < 16 ^ m) (hm : 1 ≤ m) :
    hexDigitsAux fuel n ≤ m := by
  induction fuel generalizing n m with
  | zero => simpa [hexDigitsAux] using hm
  | succ fuel ih =>
    simp only [hexDigitsAux]
    split
    · exact hm
    · rename_i hlt
      have h16 : 16 ≤ n := Nat.le_of_not_lt hlt
      have hm2 : 2 ≤ m := by
        rcases m with _ | _ | m
        · omega
        · exfalso; norm_num at hn; omega
        · omega
      have hdiv : n / 16 < 16 ^ (m - 1) := by
        apply Nat.div_lt_of_lt_mul
        have e : 16 ^ (m - 1) * 16 = 16 ^ m := by
          rw [← pow_succ]
          congr 1
          omega
        omega
      have := ih (n / 16) (m - 1) hdiv (by omega)
      omega

lemma bitLenAux_zero (fuel : Nat) : bitLenAux fuel 0 = 0 := by
  cases fuel <;> simp [bitLenAux]

lemma bitLenAux_ub (fuel n : Nat) (h : n ≤ fuel) : n < 2 ^ bitLenAux fuel n := by
  induction fuel generalizing n with
  | zero => simp [bitLenAux]; omega
  | succ fuel ih =>
    simp only [bitLenAux]
    split
    · omega
    · have := ih (n / 2) (by omega)
      rw [pow_succ]
      omega

lemma bitLenAux_lb (fuel n : Nat) (hf : n ≤ fuel) (hn : 0 < n) :
    2 ^ (bitLenAux fuel n - 1) ≤ n := by
  induction fuel generalizing n with
  | zero => omega
  | succ fuel ih =>
    simp only [bitLenAux]
    rw [if_neg (by omega)]
    simp only [Nat.add_sub_cancel]
    rcases Nat.eq_zero_or_pos (n / 2) with h0 | hpos
    · rw [h0, bitLenAux_zero]
      omega
    · have hfu : n / 2 ≤ fuel := by omega
      have hlow := ih (n / 2) hfu hpos
      have hp : 0 < bitLenAux fuel (n / 2) := by
        rcases fuel with _ | fuel
        · omega
        · simp only [bitLenAux]
          rw [if_neg (by omega)]
          omega
      have e : 2 ^ bitLenAux fuel (n / 2) = 2 ^ (bitLenAux fuel (n / 2) - 1) * 2 := by
        rw [← pow_succ]
        congr 1
        omega
      omega

lemma pyBitLength_pos (n : Nat) (hn : 0 < n) : 0 < pyBitLength n := by
  unfold pyBitLength
  rcases n with _ | n
  · omega
  · simp only [bitLenAux]
    rw [if_neg (by omega)]
    omega

lemma pyBitLength_ub (n : Nat) : n < 2 ^ pyBitLength n :=
  bitLenAux_ub n n le_rfl

lemma pyBitLength_lb (n : Nat) (hn : 0 < n) : 2 ^ (pyBitLength n - 1) ≤ n :=
  bitLenAux_lb n n le_rfl hn

lemma hexNumDigits_le_of_lt (n m : Nat) (hn : n < 16 ^ m) (hm : 1 ≤ m) :
    hexNumDigits n ≤ m :=
  hexDigitsAux_le n n m hn hm

/-! ### Claim theorems -/

/-- C1: the claim that `d2h` always returns exactly 8 bytes fails on the
code: at the double `0.0` (bit pattern `0`), `hex(0)[2:] = '0'` is padded to
`'00'` and unhexlified to the single byte `0x00`, so `d2h` returns 1 byte,
not 8; the leading zero bytes of the bit pattern are trimmed. -/
theorem d2h_zero_returns_one_byte :
    d2h 0 = [0] ∧ (d2h 0).length = 1 := by
  constructor <;> rfl

/-- C2: the fold computed inside `hash32` — signed-64 reinterpretation,
arithmetic right shift, and 32-bit masking — agrees, for every unsigned
64-bit value `h`, with the XOR of the high and low unsigned 32-bit words of
`h`; and `hash32` is exactly this fold applied to the salted hash. -/
theorem hash32_fold_matches_unsigned_xor (h : Nat) (f : List Nat → Nat)
    (buf : List Nat) (seed : Nat) (hh : h < 2 ^ 64) :
    hash32fold h = ((h >>> 32) &&& 0xFFFFFFFF) ^^^ (h &&& 0xFFFFFFFF)
  ∧ hash32 f buf seed = hash32fold (hash64salt32 f buf seed) := by
  refine ⟨?_, rfl⟩
  rw [hash32fold_eq, Nat.shiftRight_eq_div_pow, and_mask32, and_mask32]
  rfl

/-- Witness for C2 at the concrete value `0x0000000100000002`, whose fold
is `0x00000001 XOR 0x00000002 = 3`. -/
theorem hash32_fold_matches_unsigned_xor_witness :
    hash32fold 0x0000000100000002 = 3 := by
  have e := hash32_fold_matches_unsigned_xor 0x0000000100000002
    (fun _ => 0) [] 0 (by norm_num)
  rw [e.1]
  decide

/-- C3: every salted-hash wrapper passes to the opaque primitive exactly the
big-endian encoding of its seed (4 bytes for `hash64salt32` and `hash32`,
8 bytes for `hash64salt64`) concatenated with the payload — seed prepended,
never appended. -/
theorem salted_wrappers_prepend_big_endian_seed (f : List Nat → Nat)
    (payload : List Nat) (seed seed64 : Nat)
    (h32 : seed < 2 ^ 32) (h64 : seed64 < 2 ^ 64) :
    hash64salt32 f payload seed = calcHash f (spec_bigEndianU32 seed ++ payload)
  ∧ hash64salt64 f payload seed64 = calcHash f (spec_bigEndianU64 seed64 ++ payload)
  ∧ hash32 f payload seed = hash32fold (calcHash f (spec_bigEndianU32 seed ++ payload)) := by
  refine ⟨?_, ?_, ?_⟩
  · rw [hash64salt32, beBytes_four]
  · rw [hash64salt64, beBytes_eight]
  · rw [hash32, beBytes_four]

/-- Witness for C3 at a concrete primitive, payload and seeds. -/
theorem salted_wrappers_prepend_big_endian_seed_witness :
    hash64salt32 (fun b => b.length) [7] 0x61247FBF
      = calcHash (fun b => b.length) (spec_bigEndianU32 0x61247FBF ++ [7])
  ∧ hash64salt64 (fun b => b.length) [7] 5
      = calcHash (fun b => b.length) (spec_bigEndianU64 5 ++ [7])
  ∧ hash32 (fun b => b.length) [7] 0x61247FBF
      = hash32fold (calcHash (fun b => b.length) (spec_bigEndianU32 0x61247FBF ++ [7])) :=
  salted_wrappers_prepend_big_endian_seed (fun b => b.length) [7] 0x61247FBF 5
    (by norm_num) (by norm_num)

/-- C4: `generate_location_hash_by_seed` seeds the coordinate stage with the
folded unsigned 32-bit intermediate `fold_to_uint32(salted_hash(HASH_SEED,
auth_ticket))` — not the final signed int32 value — and then runs the same
four-step pipeline as the seedless location hash with that chained seed. -/
theorem location_hash_by_seed_chains_folded_intermediate (f : List Nat → Nat)
    (authticket : List Nat) (lat lng acc : Nat) :
    generate_location_hash_by_seed f authticket lat lng acc
      = spec_location_hash f lat lng acc
          (spec_fold_to_uint32 (hash64salt32 f authticket HASH_SEED))
  ∧ generate_location_hash f lat lng acc = spec_location_hash f lat lng acc HASH_SEED := by
  constructor
  · rw [generate_location_hash_by_seed, spec_location_hash, hash32_eq, hash32_eq,
      c_int32_eq_spec _ (spec_fold_lt _)]
  · rw [generate_location_hash, spec_location_hash, hash32_eq,
      c_int32_eq_spec _ (spec_fold_lt _)]

/-- C5: `generate_request_hash` returns the two's-complement signed-64
reinterpretation of `hash64salt64(request, stage1)` where `stage1` is the
full, unfolded 64-bit output of `hash64salt32(authticket, HASH_SEED)`. -/
theorem request_hash_uses_unfolded_stage1 (f : List Nat → Nat)
    (authticket request : List Nat) :
    generate_request_hash f authticket request
      = spec_reinterpret_as_int64
          (hash64salt64 f request (hash64salt32 f authticket HASH_SEED)) := by
  rw [generate_request_hash]
  exact c_int64_eq_spec _ (calcHash_lt f _)

/-- C6: `generate_location_hash` is the four-step pipeline — encode the
three doubles in order lat, lng, acc; salt with the big-endian 32-bit seed;
XOR-fold to 32 bits; reinterpret as signed int32 — at seed `HASH_SEED`; the
seeded pipeline of `hash32` followed by `ctypes.c_int32` computes the same
pipeline at any seed; `HASH_SEED` is `0x61247FBF`; and the Python default
accuracy `5` denotes the double `5.0`, bit pattern `0x4014000000000000`. -/
theorem location_hash_pipeline_decomposition (f : List Nat → Nat)
    (lat lng acc seed : Nat) :
    generate_location_hash f lat lng acc = spec_location_hash f lat lng acc HASH_SEED
  ∧ c_int32 ((hash32 f (d2h lat ++ d2h lng ++ d2h acc) seed : Nat) : Int)
      = spec_location_hash f lat lng acc seed
  ∧ HASH_SEED = 0x61247FBF
  ∧ generate_location_hash_default f lat lng
      = generate_location_hash f lat lng 0x4014000000000000 := by
  refine ⟨?_, ?_, rfl, rfl⟩
  · rw [generate_location_hash, spec_location_hash, hash32_eq,
      c_int32_eq_spec _ (spec_fold_lt _)]
  · rw [spec_location_hash, hash32_eq, c_int32_eq_spec _ (spec_fold_lt _)]

/-- C7: the signed reinterpretations are exact two's-complement narrowing:
`0x80000000 ↦ -2147483648`, `0x7FFFFFFF ↦ 2147483647`, and in general a
`uint32` `v` maps to `v` below `2^31` and to `v - 2^32` above, with the
analogous rule for the 64-bit reinterpretation used by the request hash. -/
theorem signed_reinterpretation_boundaries (v w : Nat)
    (hv : v < 2 ^ 32) (hw : w < 2 ^ 64) :
    c_int32 0x80000000 = -2147483648
  ∧ c_int32 0x7FFFFFFF = 2147483647
  ∧ c_int32 (v : Int) = (if v < 2 ^ 31 then (v : Int) else (v : Int) - 2 ^ 32)
  ∧ c_int64 (w : Int) = (if w < 2 ^ 63 then (w : Int) else (w : Int) - 2 ^ 64) := by
  refine ⟨by decide, by decide, ?_, ?_⟩
  · rw [c_int32]; split <;> omega
  · rw [c_int64]; split <;> omega

/-- Witness for C7 at the boundary inputs `0x80000000` and `2^63`. -/
theorem signed_reinterpretation_boundaries_witness :
    c_int32 0x80000000 = -2147483648
  ∧ c_int32 0x7FFFFFFF = 2147483647
  ∧ c_int32 ((0x80000000 : Nat) : Int)
      = (if (0x80000000 : Nat) < 2 ^ 31 then ((0x80000000 : Nat) : Int)
         else ((0x80000000 : Nat) : Int) - 2 ^ 32)
  ∧ c_int64 ((0x8000000000000000 : Nat) : Int)
      = (if (0x8000000000000000 : Nat) < 2 ^ 63 then ((0x8000000000000000 : Nat) : Int)
         else ((0x8000000000000000 : Nat) : Int) - 2 ^ 64) :=
  signed_reinterpretation_boundaries 0x80000000 0x8000000000000000
    (by norm_num) (by norm_num)

/-- C8: determinism of `generate_location_hash` — a second call with
identical arguments returns the identical value, and the result depends on
the opaque primitive only through its values on buffers: extensionally equal
primitives give equal hashes. -/
theorem location_hash_deterministic (f g : List Nat → Nat)
    (lat lng acc : Nat) (hfg : ∀ buf, f buf = g buf) :
    generate_location_hash f lat lng acc = generate_location_hash f lat lng acc
  ∧ generate_location_hash f lat lng acc = generate_location_hash g lat lng acc := by
  refine ⟨rfl, ?_⟩
  simp only [generate_location_hash, hash32, calcHash, hfg]

/-- Witness for C8 with two syntactically different but extensionally equal
primitives. -/
theorem location_hash_deterministic_witness :
    generate_location_hash (fun b => b.length) 0 0 0
      = generate_location_hash (fun b => b.length) 0 0 0
  ∧ generate_location_hash (fun b => b.length) 0 0 0
      = generate_location_hash (fun b => b.length + 0) 0 0 0 :=
  location_hash_deterministic (fun b => b.length) (fun b => b.length + 0)
    0 0 0 (fun _ => rfl)

/-- C9: for every primitive, buffer and seed, `hash32` returns a value
strictly below `2^32`, and the signed-int32 reinterpretation applied to it
afterwards loses no information: reducing the reinterpreted value modulo
`2^32` recovers the folded value exactly. -/
theorem hash32_fits_uint32 (f : List Nat → Nat) (buf : List Nat) (seed : Nat) :
    hash32 f buf seed < 2 ^ 32
  ∧ c_int32 ((hash32 f buf seed : Nat) : Int) % 2 ^ 32 = ((hash32 f buf seed : Nat) : Int) := by
  have hlt := hash32_lt f buf seed
  refine ⟨hlt, ?_⟩
  rw [c_int32]
  omega

lemma long_to_bytes_pos_eq (val : Nat) (hval : 0 < val) :
    long_to_bytes val = some (beBytes val ((pyBitLength val + 7) / 8)) := by
  have hbl := pyBitLength_pos val hval
  have hub := pyBitLength_ub val
  have hdig : hexNumDigits val ≤ 2 * ((pyBitLength val + 7) / 8) := by
    apply hexNumDigits_le_of_lt
    · have e : (16 : Nat) ^ (2 * ((pyBitLength val + 7) / 8))
          = 2 ^ (8 * ((pyBitLength val + 7) / 8)) := by
        rw [show (16 : Nat) = 2 ^ 4 by norm_num, ← pow_mul]
        congr 1
        ring
      have hle : (2 : Nat) ^ pyBitLength val ≤ 2 ^ (8 * ((pyBitLength val + 7) / 8)) := by
        apply Nat.pow_le_pow_right (by norm_num)
        omega
      omega
    · omega
  have e1 : max ((pyBitLength val +
      (8 - (if pyBitLength val % 8 = 0 then 8 else pyBitLength val % 8))) / 4)
      (hexNumDigits val) = 2 * ((pyBitLength val + 7) / 8) := by
    rcases eq_or_ne (pyBitLength val % 8) 0 with h8 | h8
    · rw [if_pos h8]
      omega
    · rw [if_neg h8]
      omega
  simp only [long_to_bytes]
  rw [e1]
  rw [if_neg (by omega)]
  have e3 : 2 * ((pyBitLength val + 7) / 8) / 2 = (pyBitLength val + 7) / 8 := by omega
  rw [e3]
  simp

/-- C10: `long_to_bytes 0` fails (the width computation yields the odd,
one-digit hex string `'0'`, which `unhexlify` rejects — modelled as `none`)
instead of returning an empty or zero byte string, while every positive
`val` is encoded big-endian, zero-padded to the smallest whole number of
bytes: the output has `(bit_length + 7) / 8` bytes, decodes back to `val`,
and that byte count is minimal among all widths `k` capable of holding
`val`. -/
theorem long_to_bytes_behaviour (val k : Nat) (hval : 0 < val)
    (hk : val < 256 ^ k) :
    long_to_bytes 0 = none
  ∧ long_to_bytes val = some (beBytes val ((pyBitLength val + 7) / 8))
  ∧ (beBytes val ((pyBitLength val + 7) / 8)).length = (pyBitLength val + 7) / 8
  ∧ natOfBe (beBytes val ((pyBitLength val + 7) / 8)) = val
  ∧ (pyBitLength val + 7) / 8 ≤ k := by
  refine ⟨rfl, long_to_bytes_pos_eq val hval, beBytes_length _ _, ?_, ?_⟩
  · apply natOfBe_beBytes
    have hub := pyBitLength_ub val
    have e : (256 : Nat) ^ ((pyBitLength val + 7) / 8)
        = 2 ^ (8 * ((pyBitLength val + 7) / 8)) := by
      rw [show (256 : Nat) = 2 ^ 8 by norm_num, ← pow_mul]
    have hle : (2 : Nat) ^ pyBitLength val ≤ 2 ^ (8 * ((pyBitLength val + 7) / 8)) := by
      apply Nat.pow_le_pow_right (by norm_num)
      omega
    omega
  · have hlb := pyBitLength_lb val hval
    have e : (256 : Nat) ^ k = 2 ^ (8 * k) := by
      rw [show (256 : Nat) = 2 ^ 8 by norm_num, ← pow_mul]
    have hlt : (2 : Nat) ^ (pyBitLength val - 1) < 2 ^ (8 * k) := by omega
    have := (Nat.pow_lt_pow_iff_right (by norm_num : (1 : Nat) < 2)).mp hlt
    omega

/-- Witness for C10 at `val = 256`, which needs exactly two bytes. -/
theorem long_to_bytes_behaviour_witness :
    long_to_bytes 0 = none
  ∧ long_to_bytes 256 = some (beBytes 256 ((pyBitLength 256 + 7) / 8))
  ∧ (beBytes 256 ((pyBitLength 256 + 7) / 8)).length = (pyBitLength 256 + 7) / 8
  ∧ natOfBe (beBytes 256 ((pyBitLength 256 + 7) / 8)) = 256
  ∧ (pyBitLength 256 + 7) / 8 ≤ 2 :=
  long_to_bytes_behaviour 256 2 (by norm_num) (by norm_num)
